import Mathlib

/-!
Verification development for the calculator state machine in
`src/dir/calculator.py` (class `Calculator`).

The embedding is shallow and executable:

* Python floats are modelled as exact rationals (`ℚ`) together with the three
  IEEE special values that the program can produce and propagate:
  `float("inf")` (used by `_evaluate` as the division-by-zero error sentinel),
  `-inf`, and `nan` (reachable because the sentinel participates in later
  arithmetic, e.g. `inf * 0.0 = nan`).  Two aspects of binary doubles are
  abstracted away: finite-precision rounding, and overflow saturation — in
  Python `float` of a 400-digit numeral is `inf` and `-1e200 * 1e200` is
  `-inf`, while the parses and arithmetic below stay exact.  Every value the
  claims exercise is small and exactly representable, so the abstraction is
  faithful there, and no theorem below asserts the absence of overflow
  products: the display invariant's allowed set explicitly includes all
  three IEEE renderings `"Error"`, `"nan"` and `"-inf"`.
* The GUI display (`self.display`, a `QLineEdit`) is modelled as the `String`
  it holds; `setText`/`text` become field update/read.
* Each slot of the class becomes a function `CalcState → CalcState`
  translated line by line from the source: `_digit_clicked`, `_dot_clicked`,
  `_operator_clicked`, `_equals_clicked`, `_clear`, `_backspace`,
  `_evaluate`, `_format_number`.
* `float(text)` parsing (with its `try/except` fallback to `0.0`) is modelled
  by `parseFloat`/`parseVal`; it agrees with Python's `float` on every string
  shape the machine can put in the display (optionally signed digit strings
  with at most one dot, `"Error"`, `"nan"`, `"-inf"`).

Note on the source: line 274 of `calculator.py` reads `if text == "":"` with a
stray trailing quote, an unterminated string literal that makes the module a
Python `SyntaxError`.  The definitions below embed that line as it was
evidently intended (`if text == "":`); the defect is recorded against the
formatting claim.
-/

/-- Character for a decimal digit, `'0'`–`'9'`. -/
def digitChar (d : ℕ) : Char := Char.ofNat (48 + d % 10)

/-- Decimal digit characters of a natural number, most significant first.
Fuel-based structural recursion so that the kernel can evaluate it. -/
def natCharsAux : ℕ → ℕ → List Char
  | 0, _ => []
  | fuel + 1, n =>
    if n < 10 then [digitChar n]
    else natCharsAux fuel (n / 10) ++ [digitChar (n % 10)]

/-- Decimal digit characters of a natural number. -/
def natChars (n : ℕ) : List Char := natCharsAux (n + 1) n

/-- Left-pad a digit list with `'0'` up to width `k`. -/
def padZeros (k : ℕ) (l : List Char) : List Char :=
  List.replicate (k - l.length) '0' ++ l

/-- Python `str.rstrip` for a single character: drop all trailing copies. -/
def rstripChar (c : Char) (l : List Char) : List Char :=
  (l.reverse.dropWhile (fun x => x = c)).reverse

/-- Round a nonnegative rational to an integer number of `10 ^ 10`-ths,
ties to even, as Python's correctly-rounded `"{:.10f}"` formatting does. -/
def rnd10 (q : ℚ) : ℕ :=
  let n := q.num.toNat * 10 ^ 10
  let d := q.den
  let qt := n / d
  let r := n % d
  if 2 * r < d then qt
  else if d < 2 * r then qt + 1
  else if qt % 2 = 0 then qt else qt + 1

/-- Fixed-point rendering of a nonnegative rational with 10 fractional
digits, as `"{:.10f}".format` produces for a nonnegative value. -/
def fixedTen (q : ℚ) : List Char :=
  let n := rnd10 q
  natChars (n / 10 ^ 10) ++ '.' :: padZeros 10 (natChars (n % 10 ^ 10))

/-- Fixed-point rendering of any finite value (`"{:.10f}".format(v)`). -/
def formatFixed (q : ℚ) : List Char :=
  if q < 0 then '-' :: fixedTen (-q) else fixedTen q

/-- Formatting of a finite value in `_format_number`:
`("{:.10f}".format(v)).rstrip("0").rstrip(".")`, with the empty result
replaced by `"0"` (line 274 as intended; see the header note). -/
def fmtRat (q : ℚ) : String :=
  let t := rstripChar '.' (rstripChar '0' (formatFixed q))
  if t = [] then "0" else String.mk t

/-- Values held in `left_operand` and produced by `_evaluate`: a finite
float (modelled exactly) or one of the IEEE specials the program can reach.
`inf` is the division-by-zero sentinel returned by `_evaluate`. -/
inductive Val where
  | num (q : ℚ)
  | inf
  | ninf
  | nan
deriving DecidableEq

/-- Translation of `_format_number`: the `v == float("inf")` check yields
`"Error"`; `"{:.10f}"` renders `-inf` and `nan` as `"-inf"` and `"nan"`
(strings unaffected by the two `rstrip`s); finite values go through
`fmtRat`. -/
def formatNumber : Val → String
  | .inf => "Error"
  | .ninf => "-inf"
  | .nan => "nan"
  | .num q => fmtRat q

/-- The four operator keys, the values `_operator_clicked` is connected
with (`"+"`, `"-"`, `"*"`, `"/"`). -/
inductive Op where
  | add
  | sub
  | mul
  | div
deriving DecidableEq

/-- IEEE negation on the modelled values. -/
def valNeg : Val → Val
  | .num q => .num (-q)
  | .inf => .ninf
  | .ninf => .inf
  | .nan => .nan

/-- Python float addition on the modelled values.  Finite sums are exact:
double overflow to an infinity is not modelled (header note). -/
def valAdd : Val → Val → Val
  | .num a, .num b => .num (a + b)
  | .nan, _ => .nan
  | _, .nan => .nan
  | .inf, .ninf => .nan
  | .ninf, .inf => .nan
  | .inf, _ => .inf
  | _, .inf => .inf
  | .ninf, _ => .ninf
  | _, .ninf => .ninf

/-- Python float subtraction: `a - b = a + (-b)` exactly in IEEE. -/
def valSub (a b : Val) : Val := valAdd a (valNeg b)

/-- Python float multiplication on the modelled values.  Finite products
are exact: double overflow to an infinity is not modelled (header note). -/
def valMul : Val → Val → Val
  | .num a, .num b => .num (a * b)
  | .nan, _ => .nan
  | _, .nan => .nan
  | .inf, .inf => .inf
  | .inf, .ninf => .ninf
  | .ninf, .inf => .ninf
  | .ninf, .ninf => .inf
  | .inf, .num b => if b = 0 then .nan else if 0 < b then .inf else .ninf
  | .num a, .inf => if a = 0 then .nan else if 0 < a then .inf else .ninf
  | .ninf, .num b => if b = 0 then .nan else if 0 < b then .ninf else .inf
  | .num a, .ninf => if a = 0 then .nan else if 0 < a then .ninf else .inf

/-- Python float division on the modelled values.  Only reached with a
nonzero second argument (`_evaluate` checks `b == 0.0` first). -/
def valDiv : Val → Val → Val
  | .num a, .num b => .num (a / b)
  | .nan, _ => .nan
  | _, .nan => .nan
  | .inf, .inf => .nan
  | .inf, .ninf => .nan
  | .ninf, .inf => .nan
  | .ninf, .ninf => .nan
  | .inf, .num b => if b < 0 then .ninf else .inf
  | .ninf, .num b => if b < 0 then .inf else .ninf
  | .num _, .inf => .num 0
  | .num _, .ninf => .num 0

/-- Translation of `_evaluate(a, b, op)`: dispatch on the operator, with the
division-by-zero guard `if b == 0.0: return float("inf")`.  (In Python only
`0.0` and `-0.0` compare equal to `0.0`; `ℚ` has a single zero.)  The
`try/except` around the body is dead for float operands and is omitted. -/
def evaluate (a b : Val) (op : Op) : Val :=
  match op with
  | .add => valAdd a b
  | .sub => valSub a b
  | .mul => valMul a b
  | .div => if b = .num 0 then .inf else valDiv a b

/-- Numeric value of a digit string (most significant first). -/
def digitsToNat (l : List Char) : ℕ :=
  l.foldl (fun a c => 10 * a + (c.toNat - 48)) 0

/-- Parse an unsigned decimal string the way Python `float` accepts it on
the digit-and-dot alphabet: digits, optionally a single dot, at least one
digit overall.  Returns `none` exactly where `float(...)` raises.  The
value is exact: Python saturates parses above roughly `1.8e308` to the
infinity, which is not modelled (header note). -/
def parseUnsigned (l : List Char) : Option ℚ :=
  match l.dropWhile (fun c => c.isDigit) with
  | [] =>
    if l.takeWhile (fun c => c.isDigit) = [] then none
    else some ((digitsToNat (l.takeWhile (fun c => c.isDigit)) : ℚ))
  | '.' :: fp =>
    if fp.all (fun c => c.isDigit) = true ∧
        ¬(l.takeWhile (fun c => c.isDigit) = [] ∧ fp = []) then
      some ((digitsToNat (l.takeWhile (fun c => c.isDigit)) : ℚ) +
        (digitsToNat fp : ℚ) / (10 : ℚ) ^ fp.length)
    else none
  | _ => none

/-- Parse with an optional leading minus sign. -/
def parseSigned (l : List Char) : Option ℚ :=
  match l with
  | [] => parseUnsigned []
  | c :: t =>
    if c = '-' then (parseUnsigned t).map (fun q => -q)
    else parseUnsigned (c :: t)

/-- Model of Python `float(s)` on the strings the machine can display:
the IEEE spellings the display can actually hold, then signed numerals.
Returns `none` where `float` raises (for example on `"Error"`). -/
def parseFloat (s : String) : Option Val :=
  if s = "nan" then some .nan
  else if s = "inf" then some .inf
  else if s = "-inf" then some .ninf
  else (parseSigned s.data).map Val.num

/-- The `try: cur_val = float(...) except: cur_val = 0.0` idiom. -/
def parseVal (s : String) : Val := (parseFloat s).getD (.num 0)

/-- The mutable state of the `Calculator` object: the display line plus the
three fields set up in `__init__`. -/
structure CalcState where
  display : String
  leftOperand : Option Val
  pendingOp : Option Op
  waitingForNewNumber : Bool
deriving DecidableEq

/-- State after `__init__`: display `"0"`, no left operand, no pending
operator, waiting for a new number. -/
def initState : CalcState := ⟨"0", none, none, true⟩

/-- Python's `"." in text` on the display string. -/
def hasDot (s : String) : Bool := s.data.contains '.'

/-- Translation of `_digit_clicked(ch)` for a digit key `d`. -/
def digitClicked (d : Fin 10) (s : CalcState) : CalcState :=
  if s.waitingForNewNumber then
    { s with
      display := if d = 0 then "0" else String.mk [digitChar d.val],
      waitingForNewNumber := false }
  else
    if s.display = "0" ∧ d = 0 then s
    else if s.display = "0" ∧ ¬d = 0 ∧ ¬hasDot s.display then
      { s with display := String.mk [digitChar d.val] }
    else { s with display := s.display ++ String.mk [digitChar d.val] }

/-- Translation of `_dot_clicked`. -/
def dotClicked (s : CalcState) : CalcState :=
  if s.waitingForNewNumber then
    { s with display := "0.", waitingForNewNumber := false }
  else if hasDot s.display then s
  else { s with display := s.display ++ "." }

/-- Translation of `_operator_clicked(op)`. -/
def operatorClicked (o : Op) (s : CalcState) : CalcState :=
  let cur := parseVal s.display
  let s1 :=
    match s.leftOperand with
    | none => { s with leftOperand := some cur }
    | some l =>
      match s.pendingOp with
      | some p =>
        if s.waitingForNewNumber then s
        else
          let result := evaluate l cur p
          { s with leftOperand := some result, display := formatNumber result }
      | none => s
  { s1 with pendingOp := some o, waitingForNewNumber := true }

/-- Translation of `_equals_clicked`. -/
def equalsClicked (s : CalcState) : CalcState :=
  match s.pendingOp with
  | none => s
  | some p =>
    let cur := parseVal s.display
    let result := evaluate (s.leftOperand.getD (.num 0)) cur p
    { display := formatNumber result
      leftOperand := none
      pendingOp := none
      waitingForNewNumber := true }

/-- Translation of `_clear`. -/
def clearClicked (_ : CalcState) : CalcState := initState

/-- Translation of `_backspace`.  Note the early `return` in the waiting
branch: the flag is left as it is. -/
def backspaceClicked (s : CalcState) : CalcState :=
  if s.waitingForNewNumber then { s with display := "0" }
  else if s.display.length ≤ 1 then
    { s with display := "0", waitingForNewNumber := true }
  else { s with display := String.mk s.display.data.dropLast }

/-- The event alphabet delivered by the input adapter (buttons or keys). -/
inductive Event where
  | digit (d : Fin 10)
  | dot
  | op (o : Op)
  | equals
  | clear
  | backspace
deriving DecidableEq

/-- Dispatch one event to its handler. -/
def step (e : Event) (s : CalcState) : CalcState :=
  match e with
  | .digit d => digitClicked d s
  | .dot => dotClicked s
  | .op o => operatorClicked o s
  | .equals => equalsClicked s
  | .clear => clearClicked s
  | .backspace => backspaceClicked s

/-- Run an event sequence from the initial state. -/
def run (evs : List Event) : CalcState :=
  evs.foldl (fun s e => step e s) initState

/-- Characters allowed in a typed-in numeral: a decimal digit or a dot. -/
def goodCharB (c : Char) : Bool := c.isDigit || c == '.'

/-- Drop a single leading minus sign if present. -/
def stripMinus (l : List Char) : List Char :=
  match l with
  | [] => []
  | c :: t => if c = '-' then t else c :: t

/-- Display shape produced by typing alone: digits and at most one dot,
no sign.  This is also the letter of the spec's display invariant
("digits, at most one decimal point"). -/
def typedShape (s : String) : Prop :=
  s.data.all goodCharB = true ∧ s.data.count '.' ≤ 1

/-- Display shape of a (possibly negative) numeral: an optional leading
minus sign, then digits and dots, with at most one dot overall. -/
def numericShape (s : String) : Prop :=
  (stripMinus s.data).all goodCharB = true ∧ s.data.count '.' ≤ 1

instance (s : String) : Decidable (typedShape s) := by
  unfold typedShape; infer_instance

instance (s : String) : Decidable (numericShape s) := by
  unfold numericShape; infer_instance

/-- Appending a dot makes `hasDot` true. -/
theorem hasDot_append_dot (s : String) : hasDot (s ++ ".") = true := by
  simp [hasDot, String.data_append]

/-- C1: chained operators evaluate left to right with no precedence.  After
`2`, `+`, `3`, `+` the second operator press has already applied the pending
addition (display `"5"`, accumulated left operand `5`, new pending operator
installed), and finishing with `4`, `=` leaves the display `"9"`. -/
theorem chained_ops_left_to_right :
    (run [.digit 2, .op .add, .digit 3, .op .add]).display = "5" ∧
    (run [.digit 2, .op .add, .digit 3, .op .add]).leftOperand = some (.num 5) ∧
    (run [.digit 2, .op .add, .digit 3, .op .add]).pendingOp = some .add ∧
    (run [.digit 2, .op .add, .digit 3, .op .add, .digit 4, .equals]).display = "9" := by
  with_unfolding_all decide

/-- C3: division by zero is the error sentinel, never a fault: `_evaluate`
returns the `inf` marker for every left operand whenever the right operand
is `0.0`, the marker formats to exactly `"Error"`, and the machine keeps
processing events normally afterwards (here `1 + 1 = 2` after the error). -/
theorem divide_by_zero_yields_error :
    (∀ a : Val, evaluate a (.num 0) .div = .inf) ∧
    formatNumber (evaluate (.num 5) (.num 0) .div) = "Error" ∧
    (run [.digit 5, .op .div, .digit 0, .equals]).display = "Error" ∧
    (run [.digit 5, .op .div, .digit 0, .equals,
          .digit 1, .op .add, .digit 1, .equals]).display = "2" := by
  refine ⟨fun a => by simp [evaluate], ?_, ?_, ?_⟩ <;> with_unfolding_all decide

/-- C6: after a division by zero has produced the display `"Error"`, the next
operator press parses `"Error"`, the parse fails (`parseFloat` is `none`,
modelling that `float("Error")` raises and the handler catches), `0.0` is
substituted, and — the state having been reset by equals — the left operand
becomes `0.0` while the display still reads `"Error"`. -/
theorem error_display_parses_to_zero :
    run [.digit 5, .op .div, .digit 0, .equals] =
      ⟨"Error", none, none, true⟩ ∧
    parseFloat "Error" = none ∧
    step (.op .add) (run [.digit 5, .op .div, .digit 0, .equals]) =
      ⟨"Error", some (.num 0), some .add, true⟩ := by
  with_unfolding_all decide

/-- C7: behaviour of the number formatter as the source intends it (the
shipped line 274 is a Python syntax error, see the header note): fixed-point
with ten fractional digits, trailing zeros stripped, then a trailing dot
stripped, an empty result replaced by `"0"`; `6.0` renders as `"6"` and `6.25` as
`"6.25"`. -/
theorem format_number_model :
    formatNumber (.num 6) = "6" ∧
    formatNumber (.num (25 / 4)) = "6.25" ∧
    formatNumber (.num 0) = "0" ∧
    formatNumber (.num (-(5 : ℚ) / 2)) = "-2.5" := by
  with_unfolding_all decide

/-- C9: the decimal-point event is idempotent on the display, for every
state (so in particular for every reachable one): a second press appends
nothing because the display already contains a dot. -/
theorem dot_idempotent (s : CalcState) :
    (step .dot (step .dot s)).display = (step .dot s).display := by
  show (dotClicked (dotClicked s)).display = (dotClicked s).display
  have key : ∀ t : CalcState, t.waitingForNewNumber = false →
      hasDot t.display = true → dotClicked t = t := by
    intro t h1 h2
    simp [dotClicked, h1, h2]
  by_cases hw : s.waitingForNewNumber
  · have h1 : dotClicked s = { s with display := "0.", waitingForNewNumber := false } := by
      simp [dotClicked, hw]
    rw [h1, key { s with display := "0.", waitingForNewNumber := false } rfl
      (show hasDot "0." = true by decide)]
  · have hw' : s.waitingForNewNumber = false := by simpa using hw
    by_cases hd : hasDot s.display
    · simp only [key s hw' hd]
    · have hd' : hasDot s.display = false := by simpa using hd
      have h1 : dotClicked s = { s with display := s.display ++ "." } := by
        simp [dotClicked, hw', hd']
      rw [h1, key { s with display := s.display ++ "." } hw'
        (show hasDot (s.display ++ ".") = true from hasDot_append_dot s.display)]

/-- C10: the three pure editing events — digit, decimal point, backspace —
never touch `left_operand` or `pending_op` in any state; they only modify
the display text and the awaiting-new-entry flag. -/
theorem editing_preserves_pending (s : CalcState) (d : Fin 10) :
    (step (.digit d) s).leftOperand = s.leftOperand ∧
    (step (.digit d) s).pendingOp = s.pendingOp ∧
    (step .dot s).leftOperand = s.leftOperand ∧
    (step .dot s).pendingOp = s.pendingOp ∧
    (step .backspace s).leftOperand = s.leftOperand ∧
    (step .backspace s).pendingOp = s.pendingOp := by
  refine ⟨?_, ?_, ?_, ?_, ?_, ?_⟩ <;>
    simp only [step, digitClicked, dotClicked, backspaceClicked] <;>
    split_ifs <;> rfl

/-- C5, counterexample: the display is not always digits-with-one-dot or
`"Error"`.  Entering `2 − 5 =` shows `"-3"` (a minus sign), and
`1 ÷ 0 × 0 =` shows `"nan"` (the division-by-zero infinity sentinel times
`0.0` is IEEE `nan`, which the formatter prints verbatim). -/
theorem display_claim_counterexample :
    (run [.digit 2, .op .sub, .digit 5, .equals]).display = "-3" ∧
    ¬((run [.digit 2, .op .sub, .digit 5, .equals]).display = "Error" ∨
      typedShape (run [.digit 2, .op .sub, .digit 5, .equals]).display) ∧
    (run [.digit 1, .op .div, .digit 0, .op .mul, .digit 0, .equals]).display = "nan" ∧
    ¬((run [.digit 1, .op .div, .digit 0, .op .mul, .digit 0, .equals]).display = "Error" ∨
      typedShape (run [.digit 1, .op .div, .digit 0, .op .mul, .digit 0, .equals]).display) := by
  with_unfolding_all decide

/-- C4: full description of the equals event.  With no pending operator it
is a no-op on the whole state; with pending operator `p` it applies `p` to
the left operand (defaulting to `0.0`) and the parsed display value, shows
the formatted result, and resets left operand, pending operator and the
awaiting-new-entry flag. -/
theorem equals_event_spec (s : CalcState) :
    (s.pendingOp = none → step .equals s = s) ∧
    (∀ p : Op, s.pendingOp = some p →
      step .equals s =
        ⟨formatNumber (evaluate (s.leftOperand.getD (.num 0)) (parseVal s.display) p),
          none, none, true⟩) := by
  constructor
  · intro h
    simp [step, equalsClicked, h]
  · intro p h
    simp [step, equalsClicked, h]

/-- Witness for the equals-event description: a concrete evaluation step
(`2 + 5 = 7`) and a concrete no-op. -/
theorem equals_event_spec_witness :
    step .equals (⟨"5", some (.num 2), some .add, false⟩ : CalcState) =
      ⟨"7", none, none, true⟩ ∧
    step .equals (⟨"5", none, none, false⟩ : CalcState) =
      ⟨"5", none, none, false⟩ := by
  constructor
  · exact ((equals_event_spec ⟨"5", some (.num 2), some .add, false⟩).2 .add rfl).trans
      (by with_unfolding_all decide)
  · exact (equals_event_spec ⟨"5", none, none, false⟩).1 rfl

/-- Digit events do not touch the left operand or the pending operator. -/
theorem digitClicked_frame (d : Fin 10) (s : CalcState) :
    (digitClicked d s).leftOperand = s.leftOperand ∧
    (digitClicked d s).pendingOp = s.pendingOp := by
  constructor <;> simp only [digitClicked] <;> split_ifs <;> rfl

/-- Dot events do not touch the left operand or the pending operator. -/
theorem dotClicked_frame (s : CalcState) :
    (dotClicked s).leftOperand = s.leftOperand ∧
    (dotClicked s).pendingOp = s.pendingOp := by
  constructor <;> simp only [dotClicked] <;> split_ifs <;> rfl

/-- Backspace events do not touch the left operand or the pending operator. -/
theorem backspaceClicked_frame (s : CalcState) :
    (backspaceClicked s).leftOperand = s.leftOperand ∧
    (backspaceClicked s).pendingOp = s.pendingOp := by
  constructor <;> simp only [backspaceClicked] <;> split_ifs <;> rfl

/-- An operator press always leaves a left operand behind. -/
theorem operatorClicked_left_isSome (o : Op) (s : CalcState) :
    (operatorClicked o s).leftOperand.isSome = true := by
  cases hl : s.leftOperand with
  | none => simp [operatorClicked, hl]
  | some l =>
    cases hp : s.pendingOp with
    | none => simp [operatorClicked, hl, hp]
    | some p =>
      by_cases hw : s.waitingForNewNumber <;> simp [operatorClicked, hl, hp, hw]

/-- The equals handler always clears the pending operator. -/
theorem equalsClicked_pendingOp (s : CalcState) :
    (equalsClicked s).pendingOp = none := by
  cases hp : s.pendingOp <;> simp [equalsClicked, hp]

/-- Reachability invariant: whenever an operator is pending, a left operand
is present.  (Operator presses set both; equals and clear reset both;
editing events touch neither.) -/
theorem pending_implies_left (evs : List Event) :
    (run evs).pendingOp.isSome = true → (run evs).leftOperand.isSome = true := by
  induction evs using List.reverseRecOn with
  | nil => simp [run, initState]
  | append_singleton evs e ih =>
    have hrun : run (evs ++ [e]) = step e (run evs) := by
      simp [run, List.foldl_append]
    rw [hrun]
    cases e with
    | digit d =>
      rw [show step (.digit d) (run evs) = digitClicked d (run evs) from rfl,
        (digitClicked_frame d (run evs)).1, (digitClicked_frame d (run evs)).2]
      exact ih
    | dot =>
      rw [show step .dot (run evs) = dotClicked (run evs) from rfl,
        (dotClicked_frame (run evs)).1, (dotClicked_frame (run evs)).2]
      exact ih
    | backspace =>
      rw [show step .backspace (run evs) = backspaceClicked (run evs) from rfl,
        (backspaceClicked_frame (run evs)).1, (backspaceClicked_frame (run evs)).2]
      exact ih
    | op o =>
      intro _
      exact operatorClicked_left_isSome o (run evs)
    | equals =>
      rw [show step .equals (run evs) = equalsClicked (run evs) from rfl]
      rw [equalsClicked_pendingOp]
      intro h
      cases h
    | clear =>
      intro h
      cases h

/-- Skipping case of the operator handler: waiting for a new number with an
operator already pending, the press only replaces the pending operator. -/
theorem operatorClicked_skip (o : Op) (s : CalcState)
    (hw : s.waitingForNewNumber = true) (p : Op) (hp : s.pendingOp = some p)
    (l : Val) (hl : s.leftOperand = some l) :
    operatorClicked o s = { s with pendingOp := some o } := by
  obtain ⟨d, lo, po, w⟩ := s
  simp only at hw hp hl
  subst hw hp hl
  simp [operatorClicked]

/-- C2: operator-key override.  In any reachable state that is awaiting a
new entry with an operator pending (no digit typed since the last operator
press), a further operator press skips the evaluation step and merely
replaces the pending operator; concretely, `2`, `+`, `*`, `3`, `=` shows
`"6"`. -/
theorem operator_override (evs : List Event) (o p : Op)
    (hw : (run evs).waitingForNewNumber = true)
    (hp : (run evs).pendingOp = some p) :
    step (.op o) (run evs) = { run evs with pendingOp := some o } ∧
    (run [.digit 2, .op .add, .op .mul, .digit 3, .equals]).display = "6" := by
  constructor
  · have hl : (run evs).leftOperand.isSome = true :=
      pending_implies_left evs (by rw [hp]; rfl)
    obtain ⟨l, hl'⟩ := Option.isSome_iff_exists.mp hl
    exact operatorClicked_skip o (run evs) hw p hp l hl'
  · with_unfolding_all decide

/-- Witness for operator override: after `2`, `+` the machine is awaiting a
new entry with pending `add`; pressing `*` only swaps the operator. -/
theorem operator_override_witness :
    step (.op .mul) (run [.digit 2, .op .add]) =
      { run [.digit 2, .op .add] with pendingOp := some .mul } ∧
    (run [.digit 2, .op .add, .op .mul, .digit 3, .equals]).display = "6" :=
  operator_override [.digit 2, .op .add] .mul .add
    (by with_unfolding_all decide) (by with_unfolding_all decide)

/-- The digit string with redundant leading zeros suppressed: drop leading
zeros; if nothing is left the display shows `"0"`, else the remaining
digits. -/
def canonDigits (ds : List (Fin 10)) : String :=
  let t := ds.dropWhile (fun d => d == 0)
  if t = [] then "0" else String.mk (t.map (fun d => digitChar d.val))

/-- A digit character of a nonzero digit is not `'0'`. -/
theorem digitChar_ne_zero (d : Fin 10) (h : ¬d = 0) : ¬digitChar d.val = '0' := by
  revert h
  revert d
  decide

/-- The first element surviving `dropWhile` falsifies the predicate. -/
theorem dropWhile_head_false {α : Type} (p : α → Bool) (l : List α) (x : α)
    (xs : List α) (h : l.dropWhile p = x :: xs) : p x = false := by
  induction l with
  | nil => simp at h
  | cons a as ih =>
    rw [List.dropWhile_cons] at h
    by_cases hp : p a
    · rw [if_pos hp] at h
      exact ih h
    · rw [if_neg hp] at h
      injection h with h1 h2
      subst h1
      simpa using hp

/-- A suppressed digit string starting with a nonzero digit is not the
display `"0"`. -/
theorem canon_cons_ne_zero (h0 : Fin 10) (t' : List (Fin 10)) (hh : ¬h0 = 0) :
    ¬String.mk ((h0 :: t').map (fun d => digitChar d.val)) = "0" := by
  intro hc
  rw [String.ext_iff] at hc
  simp only [List.map_cons] at hc
  have : digitChar h0.val = '0' ∧ t'.map (fun d => digitChar d.val) = [] := by
    constructor
    · exact (List.cons.injEq _ _ _ _ ▸ hc : _ ∧ _).1
    · exact (List.cons.injEq _ _ _ _ ▸ hc : _ ∧ _).2
  exact digitChar_ne_zero h0 hh this.1

/-- Characterisation of a pure digit-entry session: the state after any
sequence of digit events from the initial state. -/
theorem run_digits (ds : List (Fin 10)) :
    run (ds.map Event.digit) = ⟨canonDigits ds, none, none, ds.isEmpty⟩ := by
  induction ds using List.reverseRecOn with
  | nil => rfl
  | append_singleton ds d ih =>
    have hrun : run ((ds ++ [d]).map Event.digit) =
        step (.digit d) (run (ds.map Event.digit)) := by
      simp [run, List.foldl_append]
    rw [hrun, ih]
    simp only [step]
    have hemp : (ds ++ [d]).isEmpty = false := by simp
    rcases eq_or_ne ds [] with h | h
    · subst h
      rcases eq_or_ne d 0 with h0 | h0
      · subst h0
        rfl
      · have hb : (d == 0) = false := by simpa using h0
        simp [digitClicked, canonDigits, h0, hb]
    · have hne : ds.isEmpty = false := by simpa [List.isEmpty_iff] using h
      rw [hne]
      rcases eq_or_ne (ds.dropWhile (fun d => d == 0)) [] with htn | htn
      · have hall : ∀ x ∈ ds, (x == 0) = true := List.dropWhile_eq_nil_iff.mp htn
        have hcan : canonDigits ds = "0" := by simp [canonDigits, htn]
        rcases eq_or_ne d 0 with h0 | h0
        · subst h0
          have hall' : (ds ++ [0]).dropWhile (fun d => d == 0) = [] := by
            rw [List.dropWhile_eq_nil_iff]
            intro x hx
            rcases List.mem_append.mp hx with hx | hx
            · exact hall x hx
            · simp at hx
              simp [hx]
          have hcan' : canonDigits (ds ++ [0]) = "0" := by simp [canonDigits, hall']
          rw [hcan, hcan', hemp]
          simp [digitClicked]
        · have hb : (d == 0) = false := by simpa using h0
          have hdw : (ds ++ [d]).dropWhile (fun d => d == 0) = [d] := by
            rw [List.dropWhile_append]
            simp [htn, hb]
          have hcan' : canonDigits (ds ++ [d]) = String.mk [digitChar d.val] := by
            simp [canonDigits, hdw]
          rw [hcan, hcan', hemp]
          simp [digitClicked, h0, hasDot]
      · obtain ⟨h0, t', ht'⟩ := List.exists_cons_of_ne_nil htn
        have hhb : (h0 == 0) = false :=
          dropWhile_head_false (fun d => d == 0) ds h0 t' ht'
        have hh0 : ¬h0 = 0 := by simpa using hhb
        have hcan : canonDigits ds =
            String.mk ((h0 :: t').map (fun d => digitChar d.val)) := by
          simp [canonDigits, ht']
        have hnz : ¬canonDigits ds = "0" := by
          rw [hcan]
          exact canon_cons_ne_zero h0 t' hh0
        have hdw : (ds ++ [d]).dropWhile (fun d => d == 0) = (h0 :: t') ++ [d] := by
          rw [List.dropWhile_append]
          simp [ht']
        have hcan' : canonDigits (ds ++ [d]) =
            String.mk (((h0 :: t') ++ [d]).map (fun d => digitChar d.val)) := by
          simp only [canonDigits, hdw]
          rw [if_neg (by simp)]
        rw [hcan', hemp]
        have hstep : digitClicked d ⟨canonDigits ds, none, none, false⟩ =
            ⟨canonDigits ds ++ String.mk [digitChar d.val], none, none, false⟩ := by
          simp only [digitClicked]
          rw [if_neg (by simp), if_neg (by simp [hnz]), if_neg (by simp [hnz])]
        rw [hstep, hcan]
        have : String.mk ((h0 :: t').map (fun d => digitChar d.val)) ++
            String.mk [digitChar d.val] =
            String.mk (((h0 :: t') ++ [d]).map (fun d => digitChar d.val)) := by
          rw [String.ext_iff]
          simp [String.data_append]
        rw [this]

/-- C8: for every pure digit-entry sequence from the initial state (no
operator, dot, equals, clear or backspace events interleaved), the display
equals the entered digit string with redundant leading zeros suppressed:
`0` on display `"0"` is a no-op, a first nonzero digit replaces the `"0"`,
and every further digit is appended. -/
theorem digit_entry_canonical (ds : List (Fin 10)) :
    (run (ds.map Event.digit)).display = canonDigits ds := by
  rw [run_digits]

/-- Display contents that are not numerals: the non-numeral range of
`_format_number` — the error marker and the IEEE `nan` and `-inf`
renderings. -/
def specialDisplay (s : String) : Prop :=
  s = "Error" ∨ s = "nan" ∨ s = "-inf"

/-- Shape of a character list forming an optionally signed numeral. -/
def goodTail (l : List Char) : Prop :=
  (stripMinus l).all goodCharB = true ∧ l.count '.' ≤ 1

/-- Digit characters are decimal digits. -/
theorem isDigit_digitChar (d : ℕ) : (digitChar d).isDigit = true := by
  have h : d % 10 < 10 := Nat.mod_lt _ (by norm_num)
  unfold digitChar
  revert h
  generalize d % 10 = k
  intro h
  interval_cases k <;> decide

/-- Digit characters are in the numeral alphabet. -/
theorem goodCharB_digitChar (d : ℕ) : goodCharB (digitChar d) = true := by
  simp [goodCharB, isDigit_digitChar]

/-- All characters produced by the fuel-based digit renderer are digits. -/
theorem natCharsAux_digits (fuel : ℕ) :
    ∀ n, ∀ c ∈ natCharsAux fuel n, c.isDigit = true := by
  induction fuel with
  | zero =>
    intro n c hc
    simp [natCharsAux] at hc
  | succ f ih =>
    intro n c hc
    simp only [natCharsAux] at hc
    by_cases h : n < 10
    · rw [if_pos h] at hc
      simp at hc
      subst hc
      exact isDigit_digitChar n
    · rw [if_neg h] at hc
      rcases List.mem_append.mp hc with hc | hc
      · exact ih _ c hc
      · simp at hc
        subst hc
        exact isDigit_digitChar _

/-- All characters of a rendered natural number are digits. -/
theorem natChars_digits (n : ℕ) : ∀ c ∈ natChars n, c.isDigit = true :=
  natCharsAux_digits (n + 1) n

/-- A decimal digit is not the dot. -/
theorem ne_dot_of_isDigit (c : Char) (h : c.isDigit = true) : ¬c = '.' := by
  intro e
  subst e
  exact absurd h (by decide)

/-- A list of digits contains no dot. -/
theorem count_dot_eq_zero (l : List Char) (h : ∀ c ∈ l, c.isDigit = true) :
    l.count '.' = 0 := by
  rw [List.count_eq_zero]
  intro hm
  exact ne_dot_of_isDigit '.' (h '.' hm) rfl

/-- Zero padding keeps everything a digit. -/
theorem padZeros_digits (k : ℕ) (l : List Char) (h : ∀ c ∈ l, c.isDigit = true) :
    ∀ c ∈ padZeros k l, c.isDigit = true := by
  intro c hc
  rcases List.mem_append.mp hc with hc | hc
  · rw [List.eq_of_mem_replicate hc]
    decide
  · exact h c hc

/-- The fixed-point rendering uses only digits and the dot. -/
theorem fixedTen_good (q : ℚ) : ∀ c ∈ fixedTen q, goodCharB c = true := by
  intro c hc
  simp only [fixedTen] at hc
  rcases List.mem_append.mp hc with hc | hc
  · simp [goodCharB, natChars_digits _ c hc]
  · rcases List.mem_cons.mp hc with hc | hc
    · subst hc
      decide
    · simp [goodCharB, padZeros_digits _ _ (natChars_digits _) c hc]

/-- The fixed-point rendering has exactly one dot. -/
theorem fixedTen_count (q : ℚ) : (fixedTen q).count '.' = 1 := by
  simp only [fixedTen]
  rw [List.count_append, List.count_cons_self,
    count_dot_eq_zero _ (natChars_digits _),
    count_dot_eq_zero _ (padZeros_digits _ _ (natChars_digits _))]

/-- Lists without a minus sign anywhere trivially have the signed shape. -/
theorem goodTail_of_all_good (l : List Char) (h : l.all goodCharB = true)
    (hc : l.count '.' ≤ 1) : goodTail l := by
  refine ⟨?_, hc⟩
  cases l with
  | nil => simp [stripMinus]
  | cons c t =>
    have hcg : goodCharB c = true := by
      rw [List.all_cons] at h
      exact (Bool.and_eq_true _ _ ▸ h).1
    have hne : ¬c = '-' := by
      intro e
      subst e
      exact absurd hcg (by decide)
    rw [show stripMinus (c :: t) = c :: t from by simp [stripMinus, hne]]
    exact h

/-- The output of `"{:.10f}"` has the signed-numeral shape. -/
theorem formatFixed_goodTail (q : ℚ) : goodTail (formatFixed q) := by
  unfold formatFixed
  split_ifs with h
  · constructor
    · rw [show stripMinus ('-' :: fixedTen (-q)) = fixedTen (-q) from by
        simp [stripMinus]]
      rw [List.all_eq_true]
      exact fixedTen_good (-q)
    · simp [List.count_cons, fixedTen_count]
  · have := goodTail_of_all_good (fixedTen q)
      (List.all_eq_true.mpr (fixedTen_good q)) (le_of_eq (fixedTen_count q))
    exact this

/-- The signed-numeral shape survives removal of a suffix. -/
theorem goodTail_of_append (l t : List Char) (h : goodTail (l ++ t)) :
    goodTail l := by
  obtain ⟨h1, h2⟩ := h
  constructor
  · cases l with
    | nil => simp [stripMinus]
    | cons c l' =>
      by_cases hc : c = '-'
      · subst hc
        rw [List.cons_append] at h1
        rw [show stripMinus ('-' :: (l' ++ t)) = l' ++ t from by
          simp [stripMinus]] at h1
        rw [List.all_append] at h1
        rw [show stripMinus ('-' :: l') = l' from by simp [stripMinus]]
        exact (Bool.and_eq_true _ _ ▸ h1).1
      · rw [List.cons_append] at h1
        rw [show stripMinus (c :: (l' ++ t)) = c :: (l' ++ t) from by
          simp [stripMinus, hc]] at h1
        rw [List.all_cons, List.all_append] at h1
        rw [show stripMinus (c :: l') = c :: l' from by simp [stripMinus, hc]]
        rw [List.all_cons]
        have h1' := Bool.and_eq_true _ _ ▸ h1
        have h1'' := Bool.and_eq_true _ _ ▸ h1'.2
        rw [h1'.1, h1''.1]
        rfl
  · have : l.count '.' ≤ (l ++ t).count '.' := by
      rw [List.count_append]
      omega
    omega

/-- Stripping trailing characters leaves a leading segment of the list. -/
theorem rstrip_decomp (c : Char) (l : List Char) :
    ∃ t, l = rstripChar c l ++ t := by
  refine ⟨(l.reverse.takeWhile (fun x => x = c)).reverse, ?_⟩
  unfold rstripChar
  rw [← List.reverse_append, List.takeWhile_append_dropWhile, List.reverse_reverse]

/-- The signed-numeral shape survives `rstrip`. -/
theorem goodTail_rstrip (c : Char) (l : List Char) (h : goodTail l) :
    goodTail (rstripChar c l) := by
  obtain ⟨t, ht⟩ := rstrip_decomp c l
  exact goodTail_of_append _ t (ht ▸ h)

/-- Formatted finite values are optionally signed numerals. -/
theorem numericShape_fmtRat (q : ℚ) : numericShape (fmtRat q) := by
  show numericShape
    (if rstripChar '.' (rstripChar '0' (formatFixed q)) = [] then ("0" : String)
      else String.mk (rstripChar '.' (rstripChar '0' (formatFixed q))))
  split_ifs with h
  · decide
  · exact goodTail_rstrip '.' _ (goodTail_rstrip '0' _ (formatFixed_goodTail q))

/-- Every formatter output is a numeral or one of the three special
strings, whatever value the arithmetic hands it. -/
theorem formatNumber_shape (v : Val) :
    numericShape (formatNumber v) ∨ specialDisplay (formatNumber v) := by
  cases v with
  | num q => exact Or.inl (numericShape_fmtRat q)
  | inf => exact Or.inr (Or.inl rfl)
  | nan => exact Or.inr (Or.inr (Or.inl rfl))
  | ninf => exact Or.inr (Or.inr (Or.inr rfl))

/-- The singleton digit list has no dot. -/
theorem count_dot_single_digit (d : ℕ) : [digitChar d].count '.' = 0 :=
  count_dot_eq_zero _ (by
    intro c hc
    rw [List.mem_singleton] at hc
    subst hc
    exact isDigit_digitChar d)

/-- A typed display is in particular an optionally signed numeral. -/
theorem numericShape_of_typed (s : String) (h : typedShape s) :
    numericShape s :=
  goodTail_of_all_good s.data h.1 h.2

/-- A one-digit display is typed-shaped. -/
theorem typedShape_single_digit (d : ℕ) :
    typedShape (String.mk [digitChar d]) := by
  constructor
  · simp [goodCharB_digitChar d]
  · rw [show (String.mk [digitChar d]).data = [digitChar d] from rfl,
      count_dot_single_digit d]
    omega

/-- Appending a digit preserves the typed shape. -/
theorem typedShape_append_digit (s : String) (d : ℕ) (h : typedShape s) :
    typedShape (s ++ String.mk [digitChar d]) := by
  constructor
  · rw [String.data_append, List.all_append, h.1]
    simp [goodCharB_digitChar d]
  · rw [String.data_append, List.count_append,
      show (String.mk [digitChar d]).data = [digitChar d] from rfl,
      count_dot_single_digit d]
    have := h.2
    omega

/-- Appending a dot to a dot-free typed display keeps the typed shape. -/
theorem typedShape_append_dot (s : String) (h : typedShape s)
    (hd : hasDot s = false) : typedShape (s ++ ".") := by
  have hmem : '.' ∉ s.data := by
    intro hm
    rw [show hasDot s = s.data.elem '.' from rfl, List.elem_eq_mem] at hd
    simp [hm] at hd
  constructor
  · rw [String.data_append, List.all_append, h.1]
    decide
  · rw [String.data_append, List.count_append, List.count_eq_zero.mpr hmem]
    have : (".").data.count '.' = 1 := by decide
    omega

/-- Dropping the last character preserves the typed shape. -/
theorem typedShape_dropLast (s : String) (h : typedShape s) :
    typedShape (String.mk s.data.dropLast) := by
  have hsub : s.data.dropLast.Sublist s.data := List.dropLast_sublist s.data
  constructor
  · rw [List.all_eq_true]
    intro c hc
    exact List.all_eq_true.mp h.1 c (hsub.subset hc)
  · exact le_trans (hsub.count_le '.') h.2

/-- The inductive display invariant of the calculator: the display is an
optionally signed numeral or one of the three special strings, and a
display that is being typed (not awaiting a new entry) is an unsigned
numeral.  The special set is exactly the non-numeral range of
`_format_number`, so the invariant does not constrain which values the
arithmetic can produce: it holds just as well for the real program's
saturating double arithmetic, where typed-in overflow (`float` of a long
digit string is `inf`) or arithmetic overflow (for example
`-1e200 * 1e200 = -inf`) can reach `-inf` and display `"-inf"`. -/
def CalcInv (s : CalcState) : Prop :=
  (numericShape s.display ∨ specialDisplay s.display) ∧
  (s.waitingForNewNumber = false → typedShape s.display)

/-- Every event preserves the display invariant. -/
theorem step_calcInv (e : Event) (s : CalcState) (h : CalcInv s) :
    CalcInv (step e s) := by
  obtain ⟨hA, hB⟩ := h
  cases e with
  | digit d =>
    show CalcInv (digitClicked d s)
    by_cases hw : s.waitingForNewNumber
    · have hD : typedShape
          (if d = 0 then ("0" : String) else String.mk [digitChar d.val]) := by
        split_ifs
        · decide
        · exact typedShape_single_digit d.val
      have hs' : digitClicked d s =
          { s with
            display := if d = 0 then "0" else String.mk [digitChar d.val],
            waitingForNewNumber := false } := by
        simp [digitClicked, hw]
      rw [hs']
      exact ⟨Or.inl (numericShape_of_typed _ hD), fun _ => hD⟩
    · have hw' : s.waitingForNewNumber = false := by simpa using hw
      have htyped := hB hw'
      by_cases h1 : s.display = "0" ∧ d = 0
      · have hs' : digitClicked d s = s := by
          simp [digitClicked, hw', h1]
        rw [hs']
        exact ⟨hA, hB⟩
      · by_cases h2 : s.display = "0" ∧ ¬d = 0 ∧ ¬hasDot s.display
        · have hs' : digitClicked d s =
              { s with display := String.mk [digitChar d.val] } := by
            unfold digitClicked
            rw [hw']
            rw [if_neg (by simp), if_neg h1, if_pos h2]
          rw [hs']
          have hD := typedShape_single_digit d.val
          exact ⟨Or.inl (numericShape_of_typed _ hD), fun _ => hD⟩
        · have hs' : digitClicked d s =
              { s with display := s.display ++ String.mk [digitChar d.val] } := by
            unfold digitClicked
            rw [hw']
            rw [if_neg (by simp), if_neg h1, if_neg h2]
          rw [hs']
          have hD := typedShape_append_digit s.display d.val htyped
          exact ⟨Or.inl (numericShape_of_typed _ hD), fun _ => hD⟩
  | dot =>
    show CalcInv (dotClicked s)
    by_cases hw : s.waitingForNewNumber
    · have hs' : dotClicked s =
          { s with display := "0.", waitingForNewNumber := false } := by
        simp [dotClicked, hw]
      rw [hs']
      have hD : typedShape "0." := by decide
      exact ⟨Or.inl (numericShape_of_typed _ hD), fun _ => hD⟩
    · have hw' : s.waitingForNewNumber = false := by simpa using hw
      have htyped := hB hw'
      by_cases hd : hasDot s.display
      · have hs' : dotClicked s = s := by
          simp [dotClicked, hw', hd]
        rw [hs']
        exact ⟨hA, hB⟩
      · have hd' : hasDot s.display = false := by simpa using hd
        have hs' : dotClicked s = { s with display := s.display ++ "." } := by
          simp [dotClicked, hw', hd']
        rw [hs']
        have hD := typedShape_append_dot s.display htyped hd'
        exact ⟨Or.inl (numericShape_of_typed _ hD), fun _ => hD⟩
  | clear =>
    show CalcInv initState
    have hts : typedShape ("0" : String) := by decide
    have hns : numericShape ("0" : String) := by decide
    exact ⟨Or.inl hns, fun _ => hts⟩
  | backspace =>
    show CalcInv (backspaceClicked s)
    have hts : typedShape ("0" : String) := by decide
    have hns : numericShape ("0" : String) := by decide
    by_cases hw : s.waitingForNewNumber
    · have hs' : backspaceClicked s = { s with display := "0" } := by
        simp [backspaceClicked, hw]
      rw [hs']
      exact ⟨Or.inl hns, fun _ => hts⟩
    · have hw' : s.waitingForNewNumber = false := by simpa using hw
      have htyped := hB hw'
      by_cases hlen : s.display.length ≤ 1
      · have hs' : backspaceClicked s =
            { s with display := "0", waitingForNewNumber := true } := by
          simp [backspaceClicked, hw', hlen]
        rw [hs']
        exact ⟨Or.inl hns, fun _ => hts⟩
      · have hs' : backspaceClicked s =
            { s with display := String.mk s.display.data.dropLast } := by
          simp [backspaceClicked, hw', hlen]
        rw [hs']
        have hD := typedShape_dropLast s.display htyped
        exact ⟨Or.inl (numericShape_of_typed _ hD), fun _ => hD⟩
  | op o =>
    show CalcInv (operatorClicked o s)
    cases hl : s.leftOperand with
    | none =>
      have hs' : operatorClicked o s =
          { s with
            leftOperand := some (parseVal s.display),
            pendingOp := some o,
            waitingForNewNumber := true } := by
        simp [operatorClicked, hl]
      rw [hs']
      exact ⟨hA, fun hwf => Bool.noConfusion hwf⟩
    | some l =>
      cases hp : s.pendingOp with
      | none =>
        have hs' : operatorClicked o s =
            { s with pendingOp := some o, waitingForNewNumber := true } := by
          simp [operatorClicked, hl, hp]
        rw [hs']
        exact ⟨hA, fun hwf => Bool.noConfusion hwf⟩
      | some p =>
        by_cases hw : s.waitingForNewNumber
        · have hs' : operatorClicked o s =
              { s with pendingOp := some o, waitingForNewNumber := true } := by
            simp [operatorClicked, hl, hp, hw]
          rw [hs']
          exact ⟨hA, fun hwf => Bool.noConfusion hwf⟩
        · have hw' : s.waitingForNewNumber = false := by simpa using hw
          have hs' : operatorClicked o s =
              { s with
                leftOperand := some (evaluate l (parseVal s.display) p),
                display := formatNumber (evaluate l (parseVal s.display) p),
                pendingOp := some o,
                waitingForNewNumber := true } := by
            simp [operatorClicked, hl, hp, hw']
          rw [hs']
          exact ⟨formatNumber_shape _, fun hwf => Bool.noConfusion hwf⟩
  | equals =>
    show CalcInv (equalsClicked s)
    cases hp : s.pendingOp with
    | none =>
      have hs' : equalsClicked s = s := by
        simp [equalsClicked, hp]
      rw [hs']
      exact ⟨hA, hB⟩
    | some p =>
      have hs' : equalsClicked s =
          ⟨formatNumber (evaluate (s.leftOperand.getD (.num 0))
            (parseVal s.display) p), none, none, true⟩ := by
        simp [equalsClicked, hp]
      rw [hs']
      exact ⟨formatNumber_shape _, fun hwf => Bool.noConfusion hwf⟩

/-- The display invariant holds in every reachable state. -/
theorem calcInv_run (evs : List Event) : CalcInv (run evs) := by
  induction evs using List.reverseRecOn with
  | nil =>
    have hts : typedShape ("0" : String) := by decide
    have hns : numericShape ("0" : String) := by decide
    exact ⟨Or.inl hns, fun _ => hts⟩
  | append_singleton evs e ih =>
    have hrun : run (evs ++ [e]) = step e (run evs) := by
      simp [run, List.foldl_append]
    rw [hrun]
    exact step_calcInv e (run evs) ih

/-- C5, amended: after every event sequence from the initial state the
display is an optionally signed numeral (digits, at most one dot, optional
single leading minus), or one of the IEEE-derived strings `"Error"`,
`"nan"` or `"-inf"` — the division-by-zero sentinel's rendering and its
arithmetic descendants (in the real program `-inf` is reachable through
double overflow saturation, which the exact-rational model does not
produce but the invariant allows); in every case the display contains at
most one decimal point. -/
theorem display_invariant_amended (evs : List Event) :
    (numericShape (run evs).display ∨ (run evs).display = "Error" ∨
      (run evs).display = "nan" ∨ (run evs).display = "-inf") ∧
    (run evs).display.data.count '.' ≤ 1 := by
  obtain ⟨hA, _⟩ := calcInv_run evs
  constructor
  · rcases hA with h | h | h | h
    · exact Or.inl h
    · exact Or.inr (Or.inl h)
    · exact Or.inr (Or.inr (Or.inl h))
    · exact Or.inr (Or.inr (Or.inr h))
  · rcases hA with h | h | h | h
    · exact h.2
    · rw [h]
      decide
    · rw [h]
      decide
    · rw [h]
      decide
